import Mathlib

/-!
Verification of the `handler` package: an HTTP adapter that resolves GraphQL
request options from an incoming HTTP request, invokes an external execution
engine, and serializes the result as JSON or renders a console page.

The embedding mirrors `handler.go` (and its companion `renderGraphiQL` file).
External collaborators are modelled explicitly:
  * `encoding/json` decoding appears as a `Codec` of oracles: `unmarshalVars`
    models `json.Unmarshal` into a `map[string]interface{}` (returning `none`
    exactly when `Unmarshal` reports an error and leaves the fresh map empty),
    and `unmarshalOpts` models `json.Unmarshal` into a `RequestOptions` struct
    (returning `none` exactly when `Unmarshal` reports an error and leaves the
    zero-valued struct untouched).
  * `encoding/json` encoding of the execution result is modelled concretely by
    the serializers `jMarshal` (compact, `json.Marshal`) and `jMarshalI`
    (`json.MarshalIndent` with empty prefix and tab indent), over a `Json`
    value tree.
  * the GraphQL engine `graphql.Do` appears as a function parameter
    `engine : Params → Result`.
  * fallible transport operations of `net/http` appear as fields of the
    `Request` model: the outcome of reading `r.Body`, of `r.ParseForm`, and of
    `r.ParseMultipartForm`.
-/

namespace Handler

/-- A JSON value, modelling Go's `interface{}` holding decoded JSON. -/
inductive Json where
  | null : Json
  | bool (b : Bool) : Json
  | num (n : Int) : Json
  | str (s : String) : Json
  | arr (elems : List Json) : Json
  | obj (fields : List (String × Json)) : Json

/-- Go `map[string]interface{}` of decoded GraphQL variables. -/
abbrev VariablesMap := List (String × Json)

/-- A `*multipart.FileHeader`: only its identity matters to this adapter. -/
structure FileHeader where
  filename : String
deriving Repr, DecidableEq

/-- Go `map[string][]*multipart.FileHeader`. -/
abbrev Files := List (String × List FileHeader)

/-- Go `url.Values`: `map[string][]string` with insertion order kept. -/
abbrev Values := List (String × List String)

/-- `url.Values.Get`: the first value associated with the key, else `""`. -/
def valuesGet (vs : Values) (key : String) : String :=
  match vs.find? (fun p => p.1 == key) with
  | some (_, v :: _) => v
  | _ => ""

/-- Membership test `_, ok := values[key]` on a `url.Values` map. -/
def valuesHasKey (vs : Values) (key : String) : Bool :=
  (vs.find? (fun p => p.1 == key)).isSome

/-- `http.Header.Get` on a header list (canonicalization not modelled;
headers are stored under their canonical names). -/
def headerGet (hs : List (String × String)) (key : String) : String :=
  match hs.find? (fun p => p.1 == key) with
  | some (_, v) => v
  | none => ""

/-- `handler.RequestOptions`. -/
structure RequestOptions where
  query : String
  vars : VariablesMap
  operationName : String
  file : Files

/-- The zero value of `RequestOptions` (`&RequestOptions{}`). -/
def emptyOptions : RequestOptions := ⟨"", [], "", []⟩

/-- The three JSON-visible fields of `RequestOptions` that a JSON body
decodes into (the `File` field carries the tag `json:"-"`). -/
structure BodyOpts where
  query : String
  vars : VariablesMap
  operationName : String

/-- Decoding oracles for `encoding/json`.
`unmarshalVars s = none` models `json.Unmarshal([]byte(s), &m)` returning an
error with the freshly made map left empty; `some v` models success with
decoded entries `v`.  `unmarshalOpts s = none` models
`json.Unmarshal(body, &opts)` returning an error with `opts` left at its zero
value; `some o` models success. -/
structure Codec where
  unmarshalVars : String → Option VariablesMap
  unmarshalOpts : String → Option BodyOpts

/-- `*multipart.Form`: form values plus uploaded files. -/
structure MultipartForm where
  value : Values
  file : Files
deriving Repr, DecidableEq

/-- The parts of an `*http.Request` this adapter inspects.  Fallible
transport operations are recorded as their outcomes:
`body = none` models a nil body; `body = some (.error ())` models
`ioutil.ReadAll` failing; `postForm` is the outcome of `r.ParseForm`
(yielding `r.PostForm`); `multipartForm` is the outcome of
`r.ParseMultipartForm(MaxUploadMemorySize)` (yielding `r.MultipartForm`). -/
structure Request where
  method : String
  urlQuery : Values
  headers : List (String × String)
  body : Option (Except Unit String)
  postForm : Except Unit Values
  multipartForm : Except Unit MultipartForm

def ContentTypeJSON : String := "application/json"
def ContentTypeGraphQL : String := "application/graphql"
def ContentTypeFormURLEncoded : String := "application/x-www-form-urlencoded"
def ContentTypeMultipartFormData : String := "multipart/form-data"

/-- `getFromForm` of handler.go: if the form values carry a non-empty
`query`, build options from `query`, the variables (JSON-decoded, errors
ignored leaving the empty map) and `operationName`; otherwise `nil`. -/
def getFromForm (c : Codec) (values : Values) : Option RequestOptions :=
  let query := valuesGet values "query"
  if query != "" then
    let vars := (c.unmarshalVars (valuesGet values "variables")).getD []
    some ⟨query, vars, valuesGet values "operationName", []⟩
  else
    none

/-- `getFromMultipartForm` of handler.go: like `getFromForm` on the form's
values, additionally capturing the uploaded files. -/
def getFromMultipartForm (c : Codec) (form : MultipartForm) : Option RequestOptions :=
  let query := valuesGet form.value "query"
  if query != "" then
    let vars := (c.unmarshalVars (valuesGet form.value "variables")).getD []
    some ⟨query, vars, valuesGet form.value "operationName", form.file⟩
  else
    none

/-- The `Content-Type` value with any `;`-parameter suffix stripped:
`strings.Split(contentTypeStr, ";")[0]` is the prefix of the header value up
to the first `;` (`strings.Split` with a non-empty separator never returns
an empty slice, and its first element is that prefix). -/
def contentTypeOf (r : Request) : String :=
  String.mk ((headerGet r.headers "Content-Type").data.takeWhile (fun c => c != ';'))

/-- `NewRequestOptions` of handler.go: resolve request options from the URL
query string first, then (for POST requests with a body) from the body
according to its content type. -/
def NewRequestOptions (c : Codec) (r : Request) : RequestOptions :=
  match getFromForm c r.urlQuery with
  | some reqOpt => reqOpt
  | none =>
    if r.method != "POST" then emptyOptions
    else
      match r.body with
      | none => emptyOptions
      | some bodyRead =>
        let contentType := contentTypeOf r
        if contentType == ContentTypeGraphQL then
          match bodyRead with
          | .error _ => emptyOptions
          | .ok body => ⟨body, [], "", []⟩
        else if contentType == ContentTypeFormURLEncoded then
          match r.postForm with
          | .error _ => emptyOptions
          | .ok values =>
            match getFromForm c values with
            | some reqOpt => reqOpt
            | none => emptyOptions
        else if contentType == ContentTypeMultipartFormData then
          match r.multipartForm with
          | .error _ => emptyOptions
          | .ok form =>
            match getFromMultipartForm c form with
            | some reqOpt => reqOpt
            | none => emptyOptions
        else
          -- ContentTypeJSON falls through to the default branch
          match bodyRead with
          | .error _ => emptyOptions
          | .ok body =>
            match c.unmarshalOpts body with
            | none => emptyOptions
            | some o => ⟨o.query, o.vars, o.operationName, []⟩

/-! ### JSON serialization (model of `encoding/json` output) -/

/-- Decimal digit character (`0 ≤ m ≤ 9`, anything above renders as `9`). -/
def digitChar (m : Nat) : Char :=
  match m with
  | 0 => '0' | 1 => '1' | 2 => '2' | 3 => '3' | 4 => '4'
  | 5 => '5' | 6 => '6' | 7 => '7' | 8 => '8' | _ => '9'

/-- Decimal rendering of a natural number, most significant digit first. -/
def natChars (n : Nat) : List Char :=
  if h : n < 10 then [digitChar n]
  else natChars (n / 10) ++ [digitChar (n % 10)]
decreasing_by
  exact Nat.div_lt_self (Nat.lt_of_lt_of_le (by decide) (Nat.le_of_not_lt h)) (by decide)

/-- Decimal rendering of an integer. -/
def intChars (n : Int) : List Char :=
  if n < 0 then '-' :: natChars n.natAbs else natChars n.natAbs

/-- JSON string escaping of one character (quote, backslash and the common
control characters; other characters pass through unchanged). -/
def escChar (c : Char) : List Char :=
  if c = '"' then ['\\', '"']
  else if c = '\\' then ['\\', '\\']
  else if c = '\n' then ['\\', 'n']
  else if c = '\t' then ['\\', 't']
  else if c = '\r' then ['\\', 'r']
  else [c]

/-- JSON string escaping of a character list. -/
def escChars (s : List Char) : List Char := (s.map escChar).flatten

/-- A JSON string literal: quoted, escaped content. -/
def quoteStr (s : String) : List Char := '"' :: (escChars s.data ++ ['"'])

mutual

/-- Compact serialization, modelling `json.Marshal`. -/
def jMarshal : Json → List Char
  | .num n => intChars n
  | .str s => quoteStr s
  | .null => 'n' :: ['u', 'l', 'l']
  | .bool true => 't' :: ['r', 'u', 'e']
  | .bool false => 'f' :: ['a', 'l', 's', 'e']
  | .arr xs => '[' :: (jMarshalArr xs ++ [']'])
  | .obj fs => '\x7b' :: (jMarshalObj fs ++ ['\x7d'])

/-- Compact serialization of array elements, comma-separated. -/
def jMarshalArr : List Json → List Char
  | [] => []
  | [x] => jMarshal x
  | x :: y :: rest => jMarshal x ++ ',' :: jMarshalArr (y :: rest)

/-- Compact serialization of object fields, comma-separated. -/
def jMarshalObj : List (String × Json) → List Char
  | [] => []
  | [(k, v)] => quoteStr k ++ ':' :: jMarshal v
  | (k, v) :: p :: rest => quoteStr k ++ ':' :: jMarshal v ++ ',' :: jMarshalObj (p :: rest)

end

/-- `d` copies of the indent unit (`json.MarshalIndent` with prefix `""` and
indent `"\t"`, as in handler.go). -/
def indentChars (d : Nat) : List Char := List.replicate d '\t'

mutual

/-- Indented serialization at nesting depth `d`, modelling
`json.MarshalIndent(v, "", "\t")`: every element of a non-empty object or
array begins on a new line indented one level deeper, the closing bracket
returns to the opening level, a space follows each object key's colon, and
empty objects and arrays stay compact. -/
def jMarshalI (d : Nat) : Json → List Char
  | .num n => intChars n
  | .str s => quoteStr s
  | .null => 'n' :: ['u', 'l', 'l']
  | .bool true => 't' :: ['r', 'u', 'e']
  | .bool false => 'f' :: ['a', 'l', 's', 'e']
  | .arr [] => ['[', ']']
  | .arr (x :: xs) =>
    '[' :: '\n' :: (indentChars (d + 1) ++ jMarshalIArr d (x :: xs)
      ++ '\n' :: (indentChars d ++ [']']))
  | .obj [] => ['\x7b', '\x7d']
  | .obj (p :: ps) =>
    '\x7b' :: '\n' :: (indentChars (d + 1) ++ jMarshalIObj d (p :: ps)
      ++ '\n' :: (indentChars d ++ ['\x7d']))

/-- Indented serialization of the elements of a non-empty array. -/
def jMarshalIArr (d : Nat) : List Json → List Char
  | [] => []
  | [x] => jMarshalI (d + 1) x
  | x :: y :: rest =>
    jMarshalI (d + 1) x ++ ',' :: '\n' :: (indentChars (d + 1) ++ jMarshalIArr d (y :: rest))

/-- Indented serialization of the fields of a non-empty object. -/
def jMarshalIObj (d : Nat) : List (String × Json) → List Char
  | [] => []
  | [(k, v)] => quoteStr k ++ ':' :: ' ' :: jMarshalI (d + 1) v
  | (k, v) :: p :: rest =>
    quoteStr k ++ ':' :: ' ' :: jMarshalI (d + 1) v
      ++ ',' :: '\n' :: (indentChars (d + 1) ++ jMarshalIObj d (p :: rest))

end

/-! ### Execution adapter and response renderer -/

/-- An opaque, pre-built GraphQL schema (`*graphql.Schema`): this adapter
never inspects it, only passes it through. -/
structure Schema where
  id : Nat
deriving Repr, DecidableEq

/-- Go `map[string]interface{}` root object produced by the root-object
hook. -/
abbrev RootObject := List (String × Json)

/-- `graphql.Params` as populated by `ContextHandler` (the request context is
carried only to the engine and is not modelled further). -/
structure Params where
  schema : Schema
  requestString : String
  variableValues : VariablesMap
  operationName : String
  rootObject : Option RootObject

/-- The underlying cause of an error (`error` in Go; `none` is a nil
error). -/
abbrev ErrCause := Option String

/-- `gqlerrors.FormattedError`: the message, plus the underlying original
error returned by `OriginalError()`. -/
structure FormattedError where
  message : String
  original : ErrCause

/-- `graphql.Result`: data plus a list of reported errors.  Its JSON form
carries `data` always and `errors` only when non-empty (`omitempty`). -/
structure Result where
  data : Json
  errors : List FormattedError

/-- JSON form of a `gqlerrors.FormattedError` (the fields beyond the message
are serialized by the external library; the model keeps the message). -/
def FormattedError.toJson (e : FormattedError) : Json :=
  .obj [("message", .str e.message)]

/-- JSON form of a `graphql.Result`: `data` always, `errors` only when
non-empty (tag `json:"errors,omitempty"`). -/
def Result.toJson (res : Result) : Json :=
  .obj (("data", res.data) ::
    (if res.errors.isEmpty then []
     else [("errors", .arr (res.errors.map FormattedError.toJson))]))

/-- `handler.Handler`.  The result callback (`resultCallbackFn`) only
produces an external side effect after the response is written and is not
modelled. -/
structure Handler where
  schema : Schema
  pretty : Bool
  graphiql : Bool
  rootObjectFn : Option (Request → RequestOptions → RootObject)
  formatErrorFn : Option (ErrCause → FormattedError)

/-- The observable HTTP response of one request. -/
inductive Output where
  | jsonOut (contentType : String) (status : Nat) (body : String) : Output
  | consolePage (title : String) : Output

/-- `strings.Contains` on character lists. -/
def charsContain (s pat : List Char) : Bool :=
  match s with
  | [] => pat.isEmpty
  | _ :: rest => pat.isPrefixOf s || charsContain rest pat

/-- `strings.Contains(s, pat)`. -/
def strContains (s pat : String) : Bool := charsContain s.data pat.data

/-- The execution parameters `ContextHandler` builds: schema, resolved
options, and the root object from the hook when one is configured. -/
def mkParams (h : Handler) (c : Codec) (r : Request) : Params :=
  let opts := NewRequestOptions c r
  ⟨h.schema, opts.query, opts.vars, opts.operationName,
    match h.rootObjectFn with
    | some f => some (f r opts)
    | none => none⟩

/-- The error-reformatting step of `ContextHandler`: when a formatter hook
is configured and the result carries at least one error, replace each
reported error with the formatter applied to its underlying cause. -/
def formatResultErrors (fmt : Option (ErrCause → FormattedError)) (res : Result) : Result :=
  match fmt with
  | some f =>
    if 0 < res.errors.length then
      ⟨res.data, res.errors.map (fun e => f e.original)⟩
    else res
  | none => res

/-- `renderGraphiQL` of the companion file: parse the fixed page template
(always succeeds for the constant template, so the 500 branch is
unreachable), serialize the variable values (discarded), and — when the
resolved query is non-empty — run the engine once more and serialize that
result (also discarded); then write the HTML page, which depends only on the
title.  Returns the page together with the engine invocations it made. -/
def renderGraphiQL (engine : Params → Result) (title : String) (params : Params) :
    Output × List Params :=
  let _variablesJson := jMarshalI 0 (Json.obj params.variableValues)
  if params.requestString != "" then
    let secondResult := engine params
    let _resultJson := jMarshalI 0 secondResult.toJson
    (.consolePage title, [params])
  else
    (.consolePage title, [])

/-- The console-page condition of `ContextHandler`: console enabled, no
`raw` key in the URL query, `Accept` not containing `application/json`, and
`Accept` containing `text/html`. -/
def consoleWanted (h : Handler) (r : Request) : Bool :=
  h.graphiql
    && !(valuesHasKey r.urlQuery "raw")
    && !(strContains (headerGet r.headers "Accept") "application/json")
    && strContains (headerGet r.headers "Accept") "text/html"

/-- `ContextHandler` of handler.go: resolve options, execute the query,
reformat errors, then either render the console page (console enabled, no
`raw` query key, `Accept` lacking `application/json` and containing
`text/html`) or write the result as JSON with status 200.  The returned
trace lists every invocation of the external engine, in order. -/
def ContextHandler (engine : Params → Result) (h : Handler) (title : String)
    (c : Codec) (r : Request) : Output × List Params :=
  let params := mkParams h c r
  let result := engine params
  let result := formatResultErrors h.formatErrorFn result
  if consoleWanted h r then
    let (page, calls) := renderGraphiQL engine title params
    (page, params :: calls)
  else
    let buff :=
      if h.pretty then jMarshalI 0 result.toJson
      else jMarshal result.toJson
    (.jsonOut "application/json; charset=utf-8" 200 (String.mk buff), [params])

/-- `handler.Config` (hooks this verification does not observe are kept as
presence flags where their value cannot matter; the error formatter and
root-object hook are kept in full). -/
structure Config where
  title : String
  schema : Option Schema
  pretty : Bool
  graphiql : Bool
  rootObjectFn : Option (Request → RequestOptions → RootObject)
  formatErrorFn : Option (ErrCause → FormattedError)

/-- `NewConfig()`: no schema, pretty and console enabled. -/
def NewConfig : Config :=
  ⟨"", none, true, true, none, none⟩

/-- `New` of handler.go: substitute the default configuration when none is
given, `panic` (modelled as `Except.error`) when the configuration carries
no schema, and otherwise build the handler from the configuration. -/
def New (p : Option Config) : Except String Handler :=
  let p := p.getD NewConfig
  match p.schema with
  | none => .error "undefined GraphQL schema"
  | some s => .ok ⟨s, p.pretty, p.graphiql, p.rootObjectFn, p.formatErrorFn⟩

/-! ### Helper lemmas -/

theorem getFromForm_of_empty_query (c : Codec) (vs : Values)
    (h : valuesGet vs "query" = "") : getFromForm c vs = none := by
  simp [getFromForm, h]

theorem getFromForm_of_query (c : Codec) (vs : Values)
    (h : valuesGet vs "query" ≠ "") :
    getFromForm c vs =
      some ⟨valuesGet vs "query", (c.unmarshalVars (valuesGet vs "variables")).getD [],
        valuesGet vs "operationName", []⟩ := by
  simp [getFromForm, h]

theorem getFromMultipartForm_of_query (c : Codec) (form : MultipartForm)
    (h : valuesGet form.value "query" ≠ "") :
    getFromMultipartForm c form =
      some ⟨valuesGet form.value "query",
        (c.unmarshalVars (valuesGet form.value "variables")).getD [],
        valuesGet form.value "operationName", form.file⟩ := by
  simp [getFromMultipartForm, h]

/-! ### Claims about the request-options resolver -/

/-- C1: whenever the URL query string carries a non-empty `query` parameter,
`NewRequestOptions` returns exactly the options built from the query string —
that `query` value, the JSON-decoded `variables` parameter (empty on decode
failure) and the `operationName` parameter — regardless of the request's
method, headers, body or form data. -/
theorem queryParam_precedence (c : Codec) (r : Request)
    (hq : valuesGet r.urlQuery "query" ≠ "") :
    NewRequestOptions c r =
      ⟨valuesGet r.urlQuery "query",
       (c.unmarshalVars (valuesGet r.urlQuery "variables")).getD [],
       valuesGet r.urlQuery "operationName", []⟩ := by
  unfold NewRequestOptions
  rw [getFromForm_of_query c r.urlQuery hq]

/-- A codec whose oracles always report a decode failure. -/
def codecFail : Codec := ⟨fun _ => none, fun _ => none⟩

/-- A POST request with a `query` URL parameter, a JSON body and
well-behaved transport. -/
def reqC1 : Request :=
  ⟨"POST", [("query", ["q1"]), ("variables", ["xx"])],
   [("Content-Type", "application/json")],
   some (Except.ok "ignored body"), Except.error (), Except.error ()⟩

theorem queryParam_precedence_witness :
    valuesGet reqC1.urlQuery "query" ≠ "" ∧
      NewRequestOptions codecFail reqC1 = ⟨"q1", [], "", []⟩ :=
  ⟨by decide, queryParam_precedence codecFail reqC1 (by decide)⟩

/-- C2: `NewRequestOptions` is a total function into `RequestOptions` — it
returns exactly one record and never propagates an error.  On every parse
failure (nil body, unreadable body, failed urlencoded form parse, failed
multipart parse, undecodable JSON body) it returns the zero-valued record.
The hypotheses select the body-resolution path (no usable query-string
`query`, POST method); each conjunct covers one failure. -/
theorem newRequestOptions_never_fails (c : Codec) (r : Request)
    (hq : valuesGet r.urlQuery "query" = "")
    (hm : r.method = "POST") :
    (r.body = none → NewRequestOptions c r = emptyOptions) ∧
    (contentTypeOf r = ContentTypeGraphQL →
      r.body = some (Except.error ()) → NewRequestOptions c r = emptyOptions) ∧
    (contentTypeOf r = ContentTypeFormURLEncoded → r.body.isSome →
      r.postForm = Except.error () → NewRequestOptions c r = emptyOptions) ∧
    (contentTypeOf r = ContentTypeMultipartFormData → r.body.isSome →
      r.multipartForm = Except.error () → NewRequestOptions c r = emptyOptions) ∧
    (contentTypeOf r ≠ ContentTypeGraphQL →
      contentTypeOf r ≠ ContentTypeFormURLEncoded →
      contentTypeOf r ≠ ContentTypeMultipartFormData →
      r.body = some (Except.error ()) → NewRequestOptions c r = emptyOptions) ∧
    (contentTypeOf r ≠ ContentTypeGraphQL →
      contentTypeOf r ≠ ContentTypeFormURLEncoded →
      contentTypeOf r ≠ ContentTypeMultipartFormData →
      ∀ body, r.body = some (Except.ok body) → c.unmarshalOpts body = none →
        NewRequestOptions c r = emptyOptions) := by
  have hform := getFromForm_of_empty_query c r.urlQuery hq
  refine ⟨?_, ?_, ?_, ?_, ?_, ?_⟩
  · intro hb
    simp [NewRequestOptions, hform, hm, hb]
  · intro hct hb
    simp [NewRequestOptions, hform, hm, hb, hct]
  · intro hct hb hpf
    obtain ⟨b, hb⟩ := Option.isSome_iff_exists.mp hb
    simp [NewRequestOptions, hform, hm, hb, hct, hpf, ContentTypeFormURLEncoded,
      ContentTypeGraphQL]
  · intro hct hb hmf
    obtain ⟨b, hb⟩ := Option.isSome_iff_exists.mp hb
    simp [NewRequestOptions, hform, hm, hb, hct, hmf, ContentTypeMultipartFormData,
      ContentTypeGraphQL, ContentTypeFormURLEncoded]
  · intro h1 h2 h3 hb
    simp [NewRequestOptions, hform, hm, hb, h1, h2, h3]
  · intro h1 h2 h3 body hb hu
    simp [NewRequestOptions, hform, hm, hb, h1, h2, h3, hu]

/-- A POST request with no query parameters and an unreadable body. -/
def reqC2 : Request :=
  ⟨"POST", [], [("Content-Type", "application/json")],
   some (Except.error ()), Except.error (), Except.error ()⟩

theorem newRequestOptions_never_fails_witness :
    valuesGet reqC2.urlQuery "query" = "" ∧ reqC2.method = "POST" ∧
      NewRequestOptions codecFail reqC2 = emptyOptions := by
  refine ⟨by decide, by decide, ?_⟩
  have h := (newRequestOptions_never_fails codecFail reqC2 (by decide) (by decide)).2.2.2.2.1
  exact h (by decide) (by decide) (by decide) rfl

/-- C6: a POST with `Content-Type: application/graphql` (parameter suffixes
after `;` stripped) and no usable query-string `query` parameter resolves to
options whose query is the entire raw body, with empty variables, empty
operation name and no files. -/
theorem graphql_body_is_query (c : Codec) (r : Request)
    (hq : valuesGet r.urlQuery "query" = "")
    (hm : r.method = "POST")
    (hct : contentTypeOf r = ContentTypeGraphQL)
    (body : String) (hb : r.body = some (Except.ok body)) :
    NewRequestOptions c r = ⟨body, [], "", []⟩ := by
  have hform := getFromForm_of_empty_query c r.urlQuery hq
  simp [NewRequestOptions, hform, hm, hb, hct]

/-- A POST with a suffixed graphql content type and a raw query body. -/
def reqC6 : Request :=
  ⟨"POST", [], [("Content-Type", "application/graphql; charset=utf-8")],
   some (Except.ok "query q6"), Except.error (), Except.error ()⟩

theorem graphql_body_is_query_witness :
    contentTypeOf reqC6 = ContentTypeGraphQL ∧
      NewRequestOptions codecFail reqC6 = ⟨"query q6", [], "", []⟩ :=
  ⟨by decide,
   graphql_body_is_query codecFail reqC6 (by decide) (by decide) (by decide)
     "query q6" rfl⟩

/-- C7: a POST form (urlencoded or multipart) carrying a non-empty `query`
field whose `variables` field fails to decode as JSON still resolves
successfully, with the variables mapping left empty. -/
theorem malformed_variables_resolve_empty (c : Codec) (r : Request)
    (hq : valuesGet r.urlQuery "query" = "")
    (hm : r.method = "POST") :
    (∀ vs : Values, contentTypeOf r = ContentTypeFormURLEncoded →
      r.body.isSome → r.postForm = Except.ok vs →
      valuesGet vs "query" ≠ "" →
      c.unmarshalVars (valuesGet vs "variables") = none →
      NewRequestOptions c r =
        ⟨valuesGet vs "query", [], valuesGet vs "operationName", []⟩) ∧
    (∀ form : MultipartForm, contentTypeOf r = ContentTypeMultipartFormData →
      r.body.isSome → r.multipartForm = Except.ok form →
      valuesGet form.value "query" ≠ "" →
      c.unmarshalVars (valuesGet form.value "variables") = none →
      NewRequestOptions c r =
        ⟨valuesGet form.value "query", [], valuesGet form.value "operationName",
          form.file⟩) := by
  have hform := getFromForm_of_empty_query c r.urlQuery hq
  constructor
  · intro vs hct hb hpf hvq hvars
    obtain ⟨b, hb⟩ := Option.isSome_iff_exists.mp hb
    have h2 := getFromForm_of_query c vs hvq
    simp [NewRequestOptions, hform, hm, hb, hct, hpf, h2, hvars,
      ContentTypeFormURLEncoded, ContentTypeGraphQL]
  · intro form hct hb hmf hvq hvars
    obtain ⟨b, hb⟩ := Option.isSome_iff_exists.mp hb
    have h2 := getFromMultipartForm_of_query c form hvq
    simp [NewRequestOptions, hform, hm, hb, hct, hmf, h2, hvars,
      ContentTypeMultipartFormData, ContentTypeGraphQL, ContentTypeFormURLEncoded]

/-- A POST whose urlencoded form carries a query and undecodable variables. -/
def reqC7 : Request :=
  ⟨"POST", [], [("Content-Type", "application/x-www-form-urlencoded")],
   some (Except.ok "query=q7"),
   Except.ok [("query", ["q7"]), ("variables", ["not json"])], Except.error ()⟩

theorem malformed_variables_resolve_empty_witness :
    NewRequestOptions codecFail reqC7 = ⟨"q7", [], "", []⟩ :=
  (malformed_variables_resolve_empty codecFail reqC7 (by decide) (by decide)).1
    [("query", ["q7"]), ("variables", ["not json"])]
    (by decide) (by decide) rfl (by decide) rfl

/-! ### Claims about construction and the execution adapter -/

/-- C9: `New` fails irrecoverably (`panic`, modelled as `Except.error`)
exactly when the effective configuration — the supplied one, or the default
`NewConfig()` when none is supplied — carries no schema; the default
configuration carries none, so an absent configuration always fails.  With a
schema present, construction succeeds and returns the handler built from the
configuration. -/
theorem new_requires_schema (p : Option Config) :
    (New p = Except.error "undefined GraphQL schema" ↔
      (p.getD NewConfig).schema = none) ∧
    (New none = Except.error "undefined GraphQL schema") ∧
    (∀ s, (p.getD NewConfig).schema = some s →
      New p = Except.ok
        ⟨s, (p.getD NewConfig).pretty, (p.getD NewConfig).graphiql,
         (p.getD NewConfig).rootObjectFn, (p.getD NewConfig).formatErrorFn⟩) := by
  refine ⟨?_, rfl, ?_⟩
  · cases hs : (p.getD NewConfig).schema with
    | none => simp [New, hs]
    | some s => simp [New, hs]
  · intro s hs
    simp [New, hs]

/-- A configuration carrying a schema. -/
def cfgC9 : Config := ⟨"t", some ⟨1⟩, false, false, none, none⟩

theorem new_requires_schema_witness :
    New (some cfgC9) = Except.ok ⟨⟨1⟩, false, false, none, none⟩ :=
  (new_requires_schema (some cfgC9)).2.2 ⟨1⟩ rfl

/-- C5: when a formatter hook is configured and the engine reports `N ≥ 1`
errors, the error-reformatting step of `ContextHandler` yields exactly `N`
errors, the `i`-th being the formatter applied to the underlying original
cause of the `i`-th reported error — count and order preserved, nothing
filtered. -/
theorem formatError_one_to_one (f : ErrCause → FormattedError) (res : Result)
    (hN : 0 < res.errors.length) :
    (formatResultErrors (some f) res).errors.length = res.errors.length ∧
    ∀ i (h1 : i < (formatResultErrors (some f) res).errors.length)
      (h2 : i < res.errors.length),
      (formatResultErrors (some f) res).errors.get ⟨i, h1⟩ =
        f (res.errors.get ⟨i, h2⟩).original := by
  constructor
  · simp [formatResultErrors, hN]
  · intro i h1 h2
    simp [formatResultErrors, hN]

/-- A two-error result together with a concrete formatter. -/
def resC5 : Result :=
  ⟨.null, [⟨"m1", some "cause1"⟩, ⟨"m2", none⟩]⟩

def fmtC5 : ErrCause → FormattedError :=
  fun e => ⟨(e.getD "nil") ++ "!", none⟩

theorem formatError_one_to_one_witness :
    (formatResultErrors (some fmtC5) resC5).errors.length = 2 ∧
      (formatResultErrors (some fmtC5) resC5).errors.get ⟨0, by
        exact Nat.lt_of_lt_of_eq (by decide)
          (formatError_one_to_one fmtC5 resC5 (by decide)).1.symm⟩ =
        ⟨"cause1!", none⟩ := by
  have h := formatError_one_to_one fmtC5 resC5 (by decide)
  refine ⟨h.1, ?_⟩
  have h2 := h.2 0 (Nat.lt_of_lt_of_eq (by decide) h.1.symm) (by decide)
  exact h2.trans rfl

/-! ### Shape of the response -/

def Output.isConsole : Output → Bool
  | .consolePage _ => true
  | _ => false

def Output.isJson : Output → Bool
  | .jsonOut _ _ _ => true
  | _ => false

/-- The serialized response body for a given result under a pretty flag. -/
def serializedBody (pretty : Bool) (res : Result) : String :=
  String.mk (if pretty then jMarshalI 0 res.toJson else jMarshal res.toJson)

theorem renderGraphiQL_fst (engine : Params → Result) (title : String) (params : Params) :
    (renderGraphiQL engine title params).1 = Output.consolePage title := by
  unfold renderGraphiQL
  split <;> rfl

theorem renderGraphiQL_snd (engine : Params → Result) (title : String) (params : Params) :
    (renderGraphiQL engine title params).2 =
      if params.requestString != "" then [params] else [] := by
  unfold renderGraphiQL
  split <;> simp_all

theorem contextHandler_fst (engine : Params → Result) (h : Handler) (title : String)
    (c : Codec) (r : Request) :
    (ContextHandler engine h title c r).1 =
      if consoleWanted h r then Output.consolePage title
      else Output.jsonOut "application/json; charset=utf-8" 200
        (serializedBody h.pretty
          (formatResultErrors h.formatErrorFn (engine (mkParams h c r)))) := by
  unfold ContextHandler serializedBody
  split
  · rcases hrg : renderGraphiQL engine title (mkParams h c r) with ⟨page, calls⟩
    have := renderGraphiQL_fst engine title (mkParams h c r)
    rw [hrg] at this
    simp [hrg, this]
  · rfl

theorem contextHandler_snd (engine : Params → Result) (h : Handler) (title : String)
    (c : Codec) (r : Request) :
    (ContextHandler engine h title c r).2 =
      if consoleWanted h r then
        (if (NewRequestOptions c r).query != ""
         then [mkParams h c r, mkParams h c r] else [mkParams h c r])
      else [mkParams h c r] := by
  unfold ContextHandler
  split
  · rcases hrg : renderGraphiQL engine title (mkParams h c r) with ⟨page, calls⟩
    have hsnd := renderGraphiQL_snd engine title (mkParams h c r)
    rw [hrg] at hsnd
    have hrq : (mkParams h c r).requestString = (NewRequestOptions c r).query := rfl
    rw [hrq] at hsnd
    simp only [hrg, hsnd]
    split <;> rfl
  · rfl

/-! ### Claims about the response renderer -/

/-- C3: the console page is rendered in place of JSON exactly when the
console feature is enabled, the URL query string has no `raw` key, the
`Accept` header does not contain `application/json`, and the `Accept` header
does contain `text/html`; otherwise JSON is emitted. -/
theorem console_iff_conditions (engine : Params → Result) (h : Handler)
    (title : String) (c : Codec) (r : Request) :
    ((ContextHandler engine h title c r).1.isConsole =
      (h.graphiql
        && !(valuesHasKey r.urlQuery "raw")
        && !(strContains (headerGet r.headers "Accept") "application/json")
        && strContains (headerGet r.headers "Accept") "text/html")) ∧
    ((ContextHandler engine h title c r).1.isJson =
      !(h.graphiql
        && !(valuesHasKey r.urlQuery "raw")
        && !(strContains (headerGet r.headers "Accept") "application/json")
        && strContains (headerGet r.headers "Accept") "text/html")) := by
  rw [contextHandler_fst]
  by_cases hc : consoleWanted h r
  · rw [if_pos hc]
    rw [show (h.graphiql && !(valuesHasKey r.urlQuery "raw")
        && !(strContains (headerGet r.headers "Accept") "application/json")
        && strContains (headerGet r.headers "Accept") "text/html") = true from hc]
    exact ⟨rfl, rfl⟩
  · rw [if_neg hc]
    rw [show (h.graphiql && !(valuesHasKey r.urlQuery "raw")
        && !(strContains (headerGet r.headers "Accept") "application/json")
        && strContains (headerGet r.headers "Accept") "text/html") = false
      from Bool.not_eq_true _ ▸ eq_false_of_ne_true hc]
    exact ⟨rfl, rfl⟩

/-- C4: whenever the handler emits JSON — for arbitrary engine results,
including results carrying engine-reported errors — the response carries
`Content-Type: application/json; charset=utf-8` and HTTP status 200. -/
theorem json_always_200 (engine : Params → Result) (h : Handler)
    (title : String) (c : Codec) (r : Request) (ct : String) (st : Nat) (b : String)
    (hout : (ContextHandler engine h title c r).1 = Output.jsonOut ct st b) :
    ct = "application/json; charset=utf-8" ∧ st = 200 := by
  rw [contextHandler_fst] at hout
  by_cases hc : consoleWanted h r
  · rw [if_pos hc] at hout
    exact absurd hout (by simp)
  · rw [if_neg hc] at hout
    simp only [Output.jsonOut.injEq] at hout
    exact ⟨hout.1.symm, hout.2.1.symm⟩

/-- An engine that reports one error for every query. -/
def engineErr : Params → Result :=
  fun _ => ⟨.null, [⟨"boom", some "cause"⟩]⟩

/-- A handler with the console disabled. -/
def handlerC4 : Handler := ⟨⟨1⟩, false, false, none, none⟩

theorem json_always_200_witness :
    (ContextHandler engineErr handlerC4 "t" codecFail reqC2).1 =
      Output.jsonOut "application/json; charset=utf-8" 200
        (serializedBody false (formatResultErrors none
          (engineErr (mkParams handlerC4 codecFail reqC2)))) ∧
    "application/json; charset=utf-8" = "application/json; charset=utf-8" ∧
      (200 : Nat) = 200 := by
  have hout : (ContextHandler engineErr handlerC4 "t" codecFail reqC2).1 =
      Output.jsonOut "application/json; charset=utf-8" 200
        (serializedBody false (formatResultErrors none
          (engineErr (mkParams handlerC4 codecFail reqC2)))) := by
    rw [contextHandler_fst]
    rfl
  exact ⟨hout,
    json_always_200 engineErr handlerC4 "t" codecFail reqC2 _ _ _ hout⟩

/-- C10: on a request routed to the console page whose resolved query is
non-empty, the external engine is invoked exactly twice, both times with the
same execution parameters (the second call happens inside `renderGraphiQL`
before the page is emitted), and the second result is discarded: the
response is the console page whatever the engine returns. -/
theorem console_double_execution (engine : Params → Result) (h : Handler)
    (title : String) (c : Codec) (r : Request)
    (hc : consoleWanted h r = true)
    (hq : (NewRequestOptions c r).query ≠ "") :
    (ContextHandler engine h title c r).2 = [mkParams h c r, mkParams h c r] ∧
    (ContextHandler engine h title c r).1 = Output.consolePage title ∧
    (∀ engine2 : Params → Result,
      (ContextHandler engine2 h title c r).1 =
        (ContextHandler engine h title c r).1) := by
  have hq' : ((NewRequestOptions c r).query != "") = true := by
    simpa using hq
  refine ⟨?_, ?_, ?_⟩
  · rw [contextHandler_snd, if_pos hc, if_pos hq']
  · rw [contextHandler_fst, if_pos hc]
  · intro engine2
    rw [contextHandler_fst, contextHandler_fst, if_pos hc, if_pos hc]

/-- A console-enabled handler. -/
def handlerC10 : Handler := ⟨⟨1⟩, true, true, none, none⟩

/-- A browser navigation: `Accept: text/html`, a `query` URL parameter, no
`raw` key. -/
def reqC10 : Request :=
  ⟨"GET", [("query", ["q10"])], [("Accept", "text/html")],
   none, Except.error (), Except.error ()⟩

/-! ### Whitespace normalization of JSON text

`json.Marshal` and `json.MarshalIndent` differ only in insignificant
whitespace: the indented form inserts newlines, tab indentation and a space
after object-key colons, all outside string literals.  "Both byte strings
are valid JSON decoding to the same value" is formalized canonically:
removing all whitespace that stands outside string literals from either
byte string yields one and the same compact serialization of one JSON
value. -/

/-- JSON insignificant-whitespace characters. -/
def isWsChar (c : Char) : Bool := c == ' ' || c == '\n' || c == '\t' || c == '\r'

/-- Remove whitespace outside string literals.  The two flags track whether
the scanner stands inside a string literal and, there, right after a
backslash escape. -/
def stripAux : Bool → Bool → List Char → List Char
  | _, _, [] => []
  | false, _, c :: rest =>
    if isWsChar c then stripAux false false rest
    else if c == '"' then c :: stripAux true false rest
    else c :: stripAux false false rest
  | true, false, c :: rest =>
    if c == '"' then c :: stripAux false false rest
    else if c == '\\' then c :: stripAux true true rest
    else c :: stripAux true false rest
  | true, true, c :: rest => c :: stripAux true false rest

/-- Whitespace-outside-strings removal on a string. -/
def jsonStripWs (s : String) : String := String.mk (stripAux false false s.data)

/-- `Tok a b`: scanned from outside any string literal, `a` strips to `b`
and leaves the scanner outside again, whatever follows. -/
def Tok (a b : List Char) : Prop :=
  ∀ rest, stripAux false false (a ++ rest) = b ++ stripAux false false rest

/-- `InStr a`: scanned from inside a string literal (not after a
backslash), `a` passes through untouched and leaves the scanner inside
again, whatever follows. -/
def InStr (a : List Char) : Prop :=
  ∀ rest, stripAux true false (a ++ rest) = a ++ stripAux true false rest

theorem Tok_nil : Tok [] [] := fun _ => rfl

theorem Tok_append {a b c d : List Char} (h1 : Tok a b) (h2 : Tok c d) :
    Tok (a ++ c) (b ++ d) := by
  intro rest
  rw [List.append_assoc, h1 (c ++ rest), h2 rest, List.append_assoc]

theorem Tok_ws {c : Char} (h : isWsChar c = true) : Tok [c] [] := by
  intro rest
  simp [stripAux, h]

theorem Tok_plain {c : Char} (hws : isWsChar c = false) (hq : (c == '"') = false) :
    Tok [c] [c] := by
  intro rest
  simp [stripAux, hws, hq]

theorem InStr_append {a b : List Char} (h1 : InStr a) (h2 : InStr b) :
    InStr (a ++ b) := by
  intro rest
  rw [List.append_assoc, h1 (b ++ rest), h2 rest, List.append_assoc]

theorem InStr_escChar (c : Char) : InStr (escChar c) := by
  unfold escChar
  split
  · intro rest; simp [stripAux]
  · split
    · intro rest; simp [stripAux]
    · split
      · intro rest; simp [stripAux]
      · split
        · intro rest; simp [stripAux]
        · split
          · intro rest; simp [stripAux]
          · rename_i h1 h2 h3 h4 h5
            intro rest
            have hq : (c == '"') = false := by simp [beq_iff_eq]; exact h1
            have hb : (c == '\\') = false := by simp [beq_iff_eq]; exact h2
            simp [stripAux, hq, hb]

theorem InStr_escChars (l : List Char) : InStr (escChars l) := by
  induction l with
  | nil => intro rest; rfl
  | cons c cs ih =>
    have : escChars (c :: cs) = escChar c ++ escChars cs := by
      simp [escChars]
    rw [this]
    exact InStr_append (InStr_escChar c) ih

theorem Tok_quoteStr (s : String) : Tok (quoteStr s) (quoteStr s) := by
  intro rest
  show stripAux false false ('"' :: ((escChars s.data ++ ['"']) ++ rest)) = _
  have h1 : stripAux false false ('"' :: ((escChars s.data ++ ['"']) ++ rest)) =
      '"' :: stripAux true false ((escChars s.data ++ ['"']) ++ rest) := by
    simp [stripAux, (by decide : isWsChar '"' = false)]
  rw [h1, List.append_assoc, InStr_escChars s.data

    (['"'] ++ rest)]
  have h2 : stripAux true false (['"'] ++ rest) = '"' :: stripAux false false rest := by
    simp [stripAux]
  rw [h2]
  simp [quoteStr]

theorem Tok_indent (d : Nat) : Tok (indentChars d) [] := by
  induction d with
  | zero => exact Tok_nil
  | succ n ih =>
    have : indentChars (n + 1) = '\t' :: indentChars n := by
      simp [indentChars, List.replicate]
    rw [this]
    have := Tok_append (Tok_ws (c := '\t') (by decide)) ih
    simpa using this

/-- Character lists free of whitespace and quotes strip to themselves. -/
def plainTok (l : List Char) : Bool := l.all (fun c => !isWsChar c && !(c == '"'))

theorem Tok_plainTok {l : List Char} (h : plainTok l = true) : Tok l l := by
  induction l with
  | nil => exact Tok_nil
  | cons c cs ih =>
    simp only [plainTok, List.all_cons, Bool.and_eq_true, Bool.not_eq_true'] at h
    have h1 := Tok_plain h.1.1 h.1.2
    have h2 := ih (by simpa [plainTok] using h.2)
    simpa using Tok_append h1 h2

theorem digitChar_plain (m : Nat) :
    (!isWsChar (digitChar m) && !(digitChar m == '"')) = true := by
  unfold digitChar
  split <;> decide

theorem natChars_plain (n : Nat) : plainTok (natChars n) = true := by
  induction n using Nat.strong_induction_on with
  | _ n ih =>
    unfold natChars
    split
    · simp [plainTok, digitChar_plain]
    · rename_i h
      have hlt : n / 10 < n :=
        Nat.div_lt_self (Nat.lt_of_lt_of_le (by decide) (Nat.le_of_not_lt h)) (by decide)
      have := ih (n / 10) hlt
      simp [plainTok, List.all_append] at this ⊢
      exact ⟨by simpa [plainTok] using this, by simpa using digitChar_plain (n % 10)⟩

theorem intChars_plain (n : Int) : plainTok (intChars n) = true := by
  unfold intChars
  split
  · simp [plainTok] at *
    exact ⟨by decide, by simpa [plainTok] using natChars_plain n.natAbs⟩
  · exact natChars_plain n.natAbs

mutual

theorem Tok_indented (d : Nat) (j : Json) : Tok (jMarshalI d j) (jMarshal j) := by
  cases j with
  | null =>
    have h : Tok ['n', 'u', 'l', 'l'] ['n', 'u', 'l', 'l'] := Tok_plainTok (by decide)
    simpa [jMarshalI, jMarshal] using h
  | bool b =>
    cases b
    · have h : Tok ['f', 'a', 'l', 's', 'e'] ['f', 'a', 'l', 's', 'e'] :=
        Tok_plainTok (by decide)
      simpa [jMarshalI, jMarshal] using h
    · have h : Tok ['t', 'r', 'u', 'e'] ['t', 'r', 'u', 'e'] := Tok_plainTok (by decide)
      simpa [jMarshalI, jMarshal] using h
  | num n =>
    have h := Tok_plainTok (intChars_plain n)
    simpa [jMarshalI, jMarshal] using h
  | str s =>
    have h := Tok_quoteStr s
    simpa [jMarshalI, jMarshal] using h
  | arr xs =>
    cases xs with
    | nil =>
      have h : Tok ['[', ']'] ['[', ']'] := Tok_plainTok (by decide)
      simpa [jMarshalI, jMarshal, jMarshalArr] using h
    | cons x rest =>
      have h := Tok_append (Tok_plain (c := '[') (by decide) (by decide))
        (Tok_append (Tok_ws (c := '\n') (by decide))
          (Tok_append (Tok_indent (d + 1))
            (Tok_append (Tok_indentedArr d (x :: rest))
              (Tok_append (Tok_ws (c := '\n') (by decide))
                (Tok_append (Tok_indent d)
                  (Tok_plain (c := ']') (by decide) (by decide)))))))
      simpa [jMarshalI, jMarshal] using h
  | obj fs =>
    cases fs with
    | nil =>
      have h : Tok ['\x7b', '\x7d'] ['\x7b', '\x7d'] := Tok_plainTok (by decide)
      simpa [jMarshalI, jMarshal, jMarshalObj] using h
    | cons p rest =>
      have h := Tok_append (Tok_plain (c := '\x7b') (by decide) (by decide))
        (Tok_append (Tok_ws (c := '\n') (by decide))
          (Tok_append (Tok_indent (d + 1))
            (Tok_append (Tok_indentedObj d (p :: rest))
              (Tok_append (Tok_ws (c := '\n') (by decide))
                (Tok_append (Tok_indent d)
                  (Tok_plain (c := '\x7d') (by decide) (by decide)))))))
      simpa [jMarshalI, jMarshal] using h

theorem Tok_indentedArr (d : Nat) (xs : List Json) :
    Tok (jMarshalIArr d xs) (jMarshalArr xs) := by
  cases xs with
  | nil => exact Tok_nil
  | cons x rest =>
    cases rest with
    | nil => exact Tok_indented (d + 1) x
    | cons y rest2 =>
      have h := Tok_append (Tok_indented (d + 1) x)
        (Tok_append (Tok_plain (c := ',') (by decide) (by decide))
          (Tok_append (Tok_ws (c := '\n') (by decide))
            (Tok_append (Tok_indent (d + 1))
              (Tok_indentedArr d (y :: rest2)))))
      simpa [jMarshalIArr, jMarshalArr] using h

theorem Tok_indentedObj (d : Nat) (fs : List (String × Json)) :
    Tok (jMarshalIObj d fs) (jMarshalObj fs) := by
  cases fs with
  | nil => exact Tok_nil
  | cons p rest =>
    cases rest with
    | nil =>
      have h := Tok_append (Tok_quoteStr p.1)
        (Tok_append (Tok_plain (c := ':') (by decide) (by decide))
          (Tok_append (Tok_ws (c := ' ') (by decide))
            (Tok_indented (d + 1) p.2)))
      rcases p with ⟨k, v⟩
      simpa [jMarshalIObj, jMarshalObj] using h
    | cons q rest2 =>
      have h := Tok_append (Tok_quoteStr p.1)
        (Tok_append (Tok_plain (c := ':') (by decide) (by decide))
          (Tok_append (Tok_ws (c := ' ') (by decide))
            (Tok_append (Tok_indented (d + 1) p.2)
              (Tok_append (Tok_plain (c := ',') (by decide) (by decide))
                (Tok_append (Tok_ws (c := '\n') (by decide))
                  (Tok_append (Tok_indent (d + 1))
                    (Tok_indentedObj d (q :: rest2))))))))
      rcases p with ⟨k, v⟩
      simpa [jMarshalIObj, jMarshalObj] using h

end

mutual

theorem Tok_compact (j : Json) : Tok (jMarshal j) (jMarshal j) := by
  cases j with
  | null =>
    have h : Tok ['n', 'u', 'l', 'l'] ['n', 'u', 'l', 'l'] := Tok_plainTok (by decide)
    simpa [jMarshal] using h
  | bool b =>
    cases b
    · have h : Tok ['f', 'a', 'l', 's', 'e'] ['f', 'a', 'l', 's', 'e'] :=
        Tok_plainTok (by decide)
      simpa [jMarshal] using h
    · have h : Tok ['t', 'r', 'u', 'e'] ['t', 'r', 'u', 'e'] := Tok_plainTok (by decide)
      simpa [jMarshal] using h
  | num n =>
    have h := Tok_plainTok (intChars_plain n)
    simpa [jMarshal] using h
  | str s =>
    have h := Tok_quoteStr s
    simpa [jMarshal] using h
  | arr xs =>
    have h := Tok_append (Tok_plain (c := '[') (by decide) (by decide))
      (Tok_append (Tok_compactArr xs)
        (Tok_plain (c := ']') (by decide) (by decide)))
    simpa [jMarshal] using h
  | obj fs =>
    have h := Tok_append (Tok_plain (c := '\x7b') (by decide) (by decide))
      (Tok_append (Tok_compactObj fs)
        (Tok_plain (c := '\x7d') (by decide) (by decide)))
    simpa [jMarshal] using h

theorem Tok_compactArr (xs : List Json) : Tok (jMarshalArr xs) (jMarshalArr xs) := by
  cases xs with
  | nil => exact Tok_nil
  | cons x rest =>
    cases rest with
    | nil => exact Tok_compact x
    | cons y rest2 =>
      have h := Tok_append (Tok_compact x)
        (Tok_append (Tok_plain (c := ',') (by decide) (by decide))
          (Tok_compactArr (y :: rest2)))
      simpa [jMarshalArr] using h

theorem Tok_compactObj (fs : List (String × Json)) :
    Tok (jMarshalObj fs) (jMarshalObj fs) := by
  cases fs with
  | nil => exact Tok_nil
  | cons p rest =>
    cases rest with
    | nil =>
      have h := Tok_append (Tok_quoteStr p.1)
        (Tok_append (Tok_plain (c := ':') (by decide) (by decide))
          (Tok_compact p.2))
      rcases p with ⟨k, v⟩
      simpa [jMarshalObj] using h
    | cons q rest2 =>
      have h := Tok_append (Tok_quoteStr p.1)
        (Tok_append (Tok_plain (c := ':') (by decide) (by decide))
          (Tok_append (Tok_compact p.2)
            (Tok_append (Tok_plain (c := ',') (by decide) (by decide))
              (Tok_compactObj (q :: rest2)))))
      rcases p with ⟨k, v⟩
      simpa [jMarshalObj] using h

end

/-- Stripping insignificant whitespace from the indented serialization
yields the compact serialization. -/
theorem stripWs_indented (j : Json) :
    stripAux false false (jMarshalI 0 j) = jMarshal j := by
  have h := Tok_indented 0 j []
  simpa [stripAux] using h

/-- The compact serialization carries no insignificant whitespace. -/
theorem stripWs_compact (j : Json) :
    stripAux false false (jMarshal j) = jMarshal j := by
  have h := Tok_compact j []
  simpa [stripAux] using h

def Output.jsonBody : Output → Option String
  | .jsonOut _ _ b => some b
  | _ => none

/-- C8: for any execution result, the response body written with pretty
mode disabled is the compact serialization of one JSON value `j` and the
body written with pretty mode enabled (same handler otherwise) is the
indented serialization of the same `j`; removing insignificant whitespace
(whitespace outside string literals) from either body yields the identical
canonical compact byte string — the pretty flag never changes the decoded
response content. -/
theorem pretty_both_decode_same (engine : Params → Result) (h : Handler)
    (title : String) (c : Codec) (r : Request) (bPretty bCompact : String)
    (hp : (ContextHandler engine
      ⟨h.schema, true, h.graphiql, h.rootObjectFn, h.formatErrorFn⟩
      title c r).1.jsonBody = some bPretty)
    (hc : (ContextHandler engine
      ⟨h.schema, false, h.graphiql, h.rootObjectFn, h.formatErrorFn⟩
      title c r).1.jsonBody = some bCompact) :
    ∃ j : Json,
      bCompact = String.mk (jMarshal j) ∧
      bPretty = String.mk (jMarshalI 0 j) ∧
      jsonStripWs bPretty = bCompact ∧
      jsonStripWs bCompact = bCompact := by
  rw [contextHandler_fst] at hp hc
  by_cases hcw : consoleWanted h r
  · have hcw1 : consoleWanted
        (⟨h.schema, true, h.graphiql, h.rootObjectFn, h.formatErrorFn⟩ : Handler) r
        = true := hcw
    rw [if_pos hcw1] at hp
    exact absurd hp (by simp [Output.jsonBody])
  · have hcw1 : consoleWanted
        (⟨h.schema, true, h.graphiql, h.rootObjectFn, h.formatErrorFn⟩ : Handler) r
        = false := eq_false_of_ne_true hcw
    have hcw2 : consoleWanted
        (⟨h.schema, false, h.graphiql, h.rootObjectFn, h.formatErrorFn⟩ : Handler) r
        = false := eq_false_of_ne_true hcw
    rw [if_neg (by simp [hcw1])] at hp
    rw [if_neg (by simp [hcw2])] at hc
    simp only [Output.jsonBody, Option.some.injEq] at hp hc
    refine ⟨(formatResultErrors h.formatErrorFn
      (engine (mkParams h c r))).toJson, ?_, ?_, ?_, ?_⟩
    · rw [← hc]; rfl
    · rw [← hp]; rfl
    · rw [← hp, ← hc]
      show String.mk (stripAux false false (jMarshalI 0 _)) = _
      rw [stripWs_indented]
      rfl
    · rw [← hc]
      show String.mk (stripAux false false (jMarshal _)) = _
      rw [stripWs_compact]
      rfl

/-- The formatted result of the witness request under the error-reporting
engine. -/
def resC8 : Result :=
  formatResultErrors handlerC4.formatErrorFn (engineErr (mkParams handlerC4 codecFail reqC2))

theorem pretty_both_decode_same_witness :
    ∃ j : Json,
      serializedBody false resC8 = String.mk (jMarshal j) ∧
      serializedBody true resC8 = String.mk (jMarshalI 0 j) ∧
      jsonStripWs (serializedBody true resC8) = serializedBody false resC8 ∧
      jsonStripWs (serializedBody false resC8) = serializedBody false resC8 :=
  pretty_both_decode_same engineErr handlerC4 "t" codecFail reqC2
    (serializedBody true resC8) (serializedBody false resC8)
    (by rw [contextHandler_fst]; rfl) (by rw [contextHandler_fst]; rfl)

theorem console_double_execution_witness :
    consoleWanted handlerC10 reqC10 = true ∧
      (ContextHandler engineErr handlerC10 "t" codecFail reqC10).2 =
        [mkParams handlerC10 codecFail reqC10, mkParams handlerC10 codecFail reqC10] := by
  refine ⟨by decide, ?_⟩
  exact (console_double_execution engineErr handlerC10 "t" codecFail reqC10
    (by decide) (by decide)).1

end Handler
